import Mathlib

/-!
Verification of the crate-graph JSON codec
(crates/change_json/src/crate_graph_json.rs).

The codec translates between an in-memory crate graph and a flat,
serializable document (CrateGraphJson).  The graph substrate
(base_db::CrateGraph, base_db::CrateName, base_db::Edition,
cfg::CfgOptions, base_db::Env) lives outside this repository and is
modelled from the spec's interface descriptions; the codec itself is
translated directly from the source file.
-/

namespace CrateGraphCodec

/-- Modelled from the spec: base_db::Edition, "a small closed enumeration
of language-edition values, serialized as its canonical text form"
(the edition type is not part of this repository). -/
inductive Edition where
  | edition2015
  | edition2018
  | edition2021
deriving DecidableEq, Inhabited

/-- Modelled from the spec: the canonical text form of an edition. -/
def Edition.toStr : Edition → String
  | .edition2015 => "2015"
  | .edition2018 => "2018"
  | .edition2021 => "2021"

/-- Modelled from the spec: the implementation's current default edition. -/
def Edition.CURRENT : Edition := .edition2021

/-- Modelled from the spec: parsing the canonical text form back into the
closed enumeration; an unrecognized text form yields none, and the
caller of the codec falls back to Edition.CURRENT. -/
def Edition.parse (s : String) : Option Edition :=
  if s = "2015" then some .edition2015
  else if s = "2018" then some .edition2018
  else if s = "2021" then some .edition2021
  else none

/-- Modelled from the spec: one predicate of a configuration predicate
set, either a boolean flag (a key with zero values) or a key-value
pair (cfg::CfgAtom is not part of this repository). -/
inductive CfgAtom where
  | flag (key : String)
  | keyValue (key : String) (value : String)
deriving DecidableEq, Inhabited

/-- The predicate key of a configuration atom. -/
def CfgAtom.key : CfgAtom → String
  | .flag k => k
  | .keyValue k _ => k

/-- Modelled from the spec: cfg::CfgOptions, "a multimap from predicate
key (text) to a set of permitted values (text); a key with zero values
denotes a boolean flag predicate", represented as a set of atoms. -/
structure CfgOptions where
  atoms : List CfgAtom
deriving DecidableEq, Inhabited

/-- Modelled from the spec: inserting a key-value predicate into the set
(set semantics, so an atom already present is not added twice). -/
def CfgOptions.insert_key_value (c : CfgOptions) (key value : String) : CfgOptions :=
  if CfgAtom.keyValue key value ∈ c.atoms then c
  else { atoms := c.atoms ++ [CfgAtom.keyValue key value] }

/-- Modelled from the spec: the distinct predicate keys of the set. -/
def CfgOptions.get_cfg_keys (c : CfgOptions) : List String :=
  (c.atoms.map CfgAtom.key).dedup

/-- Modelled from the spec: the permitted values recorded for one
predicate key (empty for a boolean flag). -/
def CfgOptions.get_cfg_values (c : CfgOptions) (key : String) : List String :=
  c.atoms.filterMap (fun a => match a with
    | .keyValue k v => if k = key then some v else none
    | .flag _ => none)

/-- Modelled from the spec: base_db::Env, "an ordered mapping from
variable name to string value, duplicates resolved last write wins"
(the environment type is not part of this repository). -/
structure Env where
  entries : List (String × String)
deriving DecidableEq, Inhabited

/-- Modelled from the spec: last-write-wins insertion into the
environment mapping. -/
def Env.set (e : Env) (key value : String) : Env :=
  if e.entries.any (fun p => p.1 == key) then
    { entries := e.entries.map (fun p => if p.1 = key then (key, value) else p) }
  else { entries := e.entries ++ [(key, value)] }

/-- Modelled from the spec: a named dependency edge stored on its source
unit (base_db::Dependency holds the target crate id and the dependency
name). -/
structure Dependency where
  crate_id : Nat
  name : String
deriving DecidableEq, Inhabited

/-- Modelled from the spec: a unit's compilation metadata
(base_db::CrateData). -/
structure CrateData where
  root_file_id : Nat
  edition : Edition
  display_name : Option String
  cfg_options : CfgOptions
  potential_cfg_options : CfgOptions
  env : Env
  proc_macro : List String
  dependencies : List Dependency
deriving DecidableEq, Inhabited

/-- Modelled from the spec: base_db::CrateGraph, an arena of crate data
indexed by the internal crate ids 0, 1, 2, …. -/
structure CrateGraph where
  arena : List CrateData
deriving DecidableEq, Inhabited

/-- Modelled from the spec: the graph construction primitive
add_unit(root_ref, edition, display_name?, cfg, potential_cfg, env);
it appends a unit with no dependencies and returns the graph together
with the unit's fresh sequential internal id. -/
def CrateGraph.add_crate_root (g : CrateGraph) (root_file_id : Nat)
    (edition : Edition) (display_name : Option String)
    (cfg_options potential_cfg_options : CfgOptions) (env : Env)
    ( proc_macro : List String) : CrateGraph × Nat :=
  ({ arena := g.arena ++ [{ root_file_id := root_file_id
                            edition := edition
                            display_name := display_name
                            cfg_options := cfg_options
                            potential_cfg_options := potential_cfg_options
                            env := env
                            proc_macro := proc_macro
                            dependencies := [] }] },
   g.arena.length)

/-- The dependency list of unit u (empty when u is out of range). -/
def CrateGraph.depsOf (g : CrateGraph) (u : Nat) : List Dependency :=
  (g.arena.getD u default).dependencies

/-- Modelled from the spec: bounded depth-first search used by the cycle
check of the edge primitive; reaches g fuel a b holds when b can be
reached from a along dependency edges within fuel steps. -/
def CrateGraph.reaches (g : CrateGraph) : Nat → Nat → Nat → Bool
  | 0, _, _ => false
  | fuel + 1, a, b =>
    a == b || (g.depsOf a).any (fun d => g.reaches fuel d.crate_id b)

/-- Modelled from the spec: the edge primitive
add_dependency(from_id, name, to_id) -> Result, "where rejection covers
cycle-introduction and name collision"; out-of-range endpoints "simply
fail at the point they are used".  On success the dependency is appended
to the source unit's dependency list. -/
def CrateGraph.add_dep (g : CrateGraph) (fromId : Nat) (dep : Dependency) :
    Except String CrateGraph :=
  if fromId ≥ g.arena.length then .error "unknown source crate"
  else if dep.crate_id ≥ g.arena.length then .error "unknown target crate"
  else if (g.depsOf fromId).any (fun d => d.name == dep.name) then
    .error "duplicate dependency name"
  else if g.reaches (g.arena.length + 1) dep.crate_id fromId then
    .error "cyclic dependency"
  else
    .ok { arena := g.arena.set fromId
            { g.arena.getD fromId default with
              dependencies := (g.arena.getD fromId default).dependencies ++ [dep] } }

/-- Modelled from the spec: the name-token validator
is_valid_dependency_name(text), accepting a "non-empty identifier-like
text token". -/
def is_valid_dependency_name (s : String) : Bool :=
  !s.isEmpty && s.toList.all (fun c => c.isAlphanum || c == '_')

/-- Modelled from the spec: CrateName::new validates a dependency name
token and returns it on success. -/
def CrateName.new (s : String) : Option String :=
  if is_valid_dependency_name s then some s else none

/-! The wire types and the codec itself, translated from
crates/change_json/src/crate_graph_json.rs. -/

/-- Wire form of a configuration predicate set (struct CfgOptionsJson). -/
structure CfgOptionsJson where
  options : List (String × List String)
deriving DecidableEq, Inhabited

/-- Wire form of an environment mapping (struct EnvJson). -/
structure EnvJson where
  env : List (String × String)
deriving DecidableEq, Inhabited

/-- Wire form of one unit's metadata (struct CrateDataJson). -/
structure CrateDataJson where
  root_file_id : Nat
  edition : String
  display_name : Option String
  cfg_options : CfgOptionsJson
  potential_cfg_options : CfgOptionsJson
  env : EnvJson
  proc_macro : List String
deriving DecidableEq, Inhabited

/-- Wire form of one dependency edge (struct DepJson). -/
structure DepJson where
  «from» : Nat
  name : String
  «to» : Nat
deriving DecidableEq, Inhabited

/-- Wire form of a whole graph (struct CrateGraphJson). -/
structure CrateGraphJson where
  crates : List (Nat × CrateDataJson)
  deps : List DepJson
deriving DecidableEq, Inhabited

/-- CfgOptionsJson::from: one (key, values) pair per distinct key. -/
def CfgOptionsJson.«from» (cfg_options : CfgOptions) : CfgOptionsJson :=
  { options := cfg_options.get_cfg_keys.map (fun key =>
      (key, cfg_options.get_cfg_values key)) }

/-- CfgOptionsJson::to_cfg_options: for each pair, insert every listed
value under the pair's key. -/
def CfgOptionsJson.to_cfg_options (j : CfgOptionsJson) : CfgOptions :=
  j.options.foldl (fun acc kv =>
    kv.2.foldl (fun acc value => acc.insert_key_value kv.1 value) acc)
    { atoms := [] }

/-- EnvJson::from: flatten the environment into a list of pairs. -/
def EnvJson.«from» (env : Env) : EnvJson :=
  { env := env.entries.map (fun p => (p.1, p.2)) }

/-- EnvJson::to_env: replay the pairs through Env::set. -/
def EnvJson.to_env (j : EnvJson) : Env :=
  j.env.foldl (fun e p => e.set p.1 p.2) { entries := [] }

/-- CrateDataJson::from: field-by-field metadata encoding; proc_macro is
always emitted as the empty list. -/
def CrateDataJson.«from» (crate_data : CrateData) : CrateDataJson :=
  { root_file_id := crate_data.root_file_id
    edition := crate_data.edition.toStr
    display_name := crate_data.display_name
    cfg_options := CfgOptionsJson.«from» crate_data.cfg_options
    potential_cfg_options := CfgOptionsJson.«from» crate_data.potential_cfg_options
    env := EnvJson.«from» crate_data.env
    proc_macro := [] }

/-- Stable ascending insertion into a slot-sorted crate list; models the
behaviour of the source's sort_by on the first component. -/
def insertBySlot (a : Nat × CrateDataJson) :
    List (Nat × CrateDataJson) → List (Nat × CrateDataJson)
  | [] => [a]
  | b :: bs => if a.1 ≤ b.1 then a :: b :: bs else b :: insertBySlot a bs

/-- Stable ascending sort of the crate list by slot; models the source's
crates.sort_by comparing the first components. -/
def sortBySlot : List (Nat × CrateDataJson) → List (Nat × CrateDataJson)
  | [] => []
  | a :: as => insertBySlot a (sortBySlot as)

/-- One step of the encoder's node walk: emit the visited node's crate
entry and append its outgoing edges to the flat dependency list. -/
def encodeStep (g : CrateGraph)
    (acc : List (Nat × CrateDataJson) × List DepJson) (id : Nat) :
    List (Nat × CrateDataJson) × List DepJson :=
  let crate_data := g.arena.getD id default
  let crate_deps := crate_data.dependencies.map (fun dep =>
    { «from» := id, name := dep.name, «to» := dep.crate_id : DepJson })
  (acc.1 ++ [(id, CrateDataJson.«from» crate_data)], acc.2 ++ crate_deps)

/-- The body of CrateGraphJson::from with the graph's native node
iteration order made explicit as ord (the source iterates a hash map,
whose order is unspecified).  Each visited node contributes its entry to
the crate list and its outgoing edges to the flat dependency list; the
crate list is then sorted by slot while the dependency list is left in
emission order. -/
def CrateGraphJson.fromWithOrder (g : CrateGraph) (ord : List Nat) : CrateGraphJson :=
  let acc := ord.foldl (encodeStep g) ([], [])
  { crates := sortBySlot acc.1, deps := acc.2 }

/-- CrateGraphJson::from at the model's canonical iteration order
0, …, n-1 (the arena's own order). -/
def CrateGraphJson.«from» (g : CrateGraph) : CrateGraphJson :=
  CrateGraphJson.fromWithOrder g (List.range g.arena.length)

/-- One step of the decoder's unit reconstruction: decode the metadata of
one crate entry (the slot component is ignored) and add a fresh unit. -/
def addUnitStep (g : CrateGraph) (entry : Nat × CrateDataJson) : CrateGraph :=
  let data := entry.2
  let edition := (Edition.parse data.edition).getD Edition.CURRENT
  let display_name := data.display_name
  let cfg_options := data.cfg_options.to_cfg_options
  let potential_cfg_options := data.potential_cfg_options.to_cfg_options
  let env := data.env.to_env
  (g.add_crate_root data.root_file_id edition display_name cfg_options
    potential_cfg_options env []).1

/-- One step of the decoder's edge replay: validate the name, attempt
add_dep, and keep the previous graph unchanged on any failure. -/
def applyDep (g : CrateGraph) (dep : DepJson) : CrateGraph :=
  match CrateName.new dep.name with
  | some name =>
    ((g.add_dep dep.«from» { crate_id := dep.«to», name := name }).toOption).getD g
  | none => g

/-- CrateGraphJson::to_crate_graph: reconstruct the units in document
order, then replay the edges in document order. -/
def CrateGraphJson.to_crate_graph (j : CrateGraphJson) : CrateGraph :=
  j.deps.foldl applyDep (j.crates.foldl addUnitStep { arena := [] })

/-! Derived notions used to state the claims. -/

/-- The emission order of the encoder's dependency list: the edges of
each visited node in the node-enumeration order, each node's edges in
that node's own dependency order. -/
def emittedDeps (g : CrateGraph) : List Nat → List DepJson
  | [] => []
  | id :: rest =>
    (g.depsOf id).map (fun dep =>
      { «from» := id, name := dep.name, «to» := dep.crate_id : DepJson })
    ++ emittedDeps g rest

/-- The unit the decoder constructs for one crate entry's metadata. -/
def decodeCrateData (data : CrateDataJson) : CrateData :=
  { root_file_id := data.root_file_id
    edition := (Edition.parse data.edition).getD Edition.CURRENT
    display_name := data.display_name
    cfg_options := data.cfg_options.to_cfg_options
    potential_cfg_options := data.potential_cfg_options.to_cfg_options
    env := data.env.to_env
    proc_macro := []
    dependencies := [] }

/-- A unit's data with its dependency list cleared (the decoder fills
dependencies only during edge replay). -/
def CrateData.stripDeps (c : CrateData) : CrateData :=
  { c with dependencies := [] }

/-- Metadata round trip of a single unit: encode then decode. -/
def decodedUnit (c : CrateData) : CrateData :=
  decodeCrateData (CrateDataJson.«from» c)

/-- Well-formedness invariants maintained by the graph API: every
dependency target is in range, every dependency name is a valid name
token, and no dependency edge closes a cycle. -/
def CrateGraph.WFB (g : CrateGraph) : Bool :=
  (List.range g.arena.length).all (fun u =>
    (g.depsOf u).all (fun d =>
      decide (d.crate_id < g.arena.length) && is_valid_dependency_name d.name &&
      !(g.reaches (g.arena.length + 1) d.crate_id u)))

/-- The hypothesis of the round-trip claim as stated: within one source
unit, dependency names are unique per (from, to) pair, i.e. among the
edges sharing one target. -/
def CrateGraph.namesUniquePerFromTo (g : CrateGraph) : Bool :=
  (List.range g.arena.length).all (fun u =>
    (List.range g.arena.length).all (fun v =>
      decide ((((g.depsOf u).filter (fun d => d.crate_id == v)).map
        Dependency.name).Nodup)))

/-- The amended hypothesis of the round-trip claim: each unit's outgoing
dependency names are unique for that unit. -/
def CrateGraph.namesUniquePerCrate (g : CrateGraph) : Bool :=
  (List.range g.arena.length).all (fun u =>
    decide (((g.depsOf u).map Dependency.name).Nodup))

/-- The decoder's acceptance test for one edge at graph state g: the
name validates and the graph accepts the dependency. -/
def depAccepted (g : CrateGraph) (dep : DepJson) : Bool :=
  match CrateName.new dep.name with
  | some name =>
    (g.add_dep dep.«from» { crate_id := dep.«to», name := name }).toOption.isSome
  | none => false

/-- The crate entry the encoder emits for the node with internal id. -/
def encEntry (g : CrateGraph) (id : Nat) : Nat × CrateDataJson :=
  (id, CrateDataJson.«from» (g.arena.getD id default))

/-- Replace the dependency list of unit u (no change out of range). -/
def setDepsAt (s : CrateGraph) (u : Nat) (ds : List Dependency) : CrateGraph :=
  { arena := s.arena.set u { s.arena.getD u default with dependencies := ds } }

/-- The graph the decoder is expected to rebuild from an encoded graph:
each unit's metadata round-tripped through the codec, each unit's
dependency list taken over unchanged. -/
def roundTripTarget (g : CrateGraph) : CrateGraph :=
  { arena := g.arena.map (fun c => { decodedUnit c with dependencies := c.dependencies }) }

/-- The atoms denoted by a wire-form pair list: one key-value atom per
listed value (a pair with an empty value list denotes no atom). -/
def pairsAtoms : List (String × List String) → List CfgAtom
  | [] => []
  | kv :: rest => kv.2.map (CfgAtom.keyValue kv.1) ++ pairsAtoms rest

/-! Concrete values used by the witnesses and counterexamples. -/

/-- Unit metadata with empty configuration and environment. -/
def plainData (root : Nat) : CrateData :=
  { root_file_id := root
    edition := .edition2018
    display_name := none
    cfg_options := { atoms := [] }
    potential_cfg_options := { atoms := [] }
    env := { entries := [] }
    proc_macro := []
    dependencies := [] }

/-- The spec's concrete scenario: three units, edge (0, dep_b, 1) and
edge (1, dep_c, 2), built through the graph API. -/
def scenarioGraph : CrateGraph :=
  let r1 := CrateGraph.add_crate_root { arena := [] } 1 .edition2018 none
    { atoms := [] } { atoms := [] } { entries := [] } []
  let r2 := r1.1.add_crate_root 2 .edition2018 none
    { atoms := [] } { atoms := [] } { entries := [] } []
  let r3 := r2.1.add_crate_root 3 .edition2018 none
    { atoms := [] } { atoms := [] } { entries := [] } []
  let g := r3.1
  let g := (g.add_dep r1.2 { crate_id := r2.2, name := "dep_b" }).toOption.getD g
  (g.add_dep r2.2 { crate_id := r3.2, name := "dep_c" }).toOption.getD g

/-- A graph whose dependency names are unique per (from, to) pair but
not per source unit: unit 0 refers to units 1 and 2 under one name. -/
def twoTargetsGraph : CrateGraph :=
  { arena := [
      { plainData 1 with dependencies :=
          [{ crate_id := 1, name := "a" }, { crate_id := 2, name := "a" }] },
      plainData 2,
      plainData 3] }

/-- A configuration predicate set holding a single boolean flag. -/
def flagOnlyCfg : CfgOptions := { atoms := [CfgAtom.flag "test"] }

/-- A configuration predicate set holding one key-value predicate and
one boolean flag. -/
def mixedCfg : CfgOptions :=
  { atoms := [CfgAtom.keyValue "feature" "std", CfgAtom.flag "test"] }

/-- Wire-form unit metadata with empty configuration and environment. -/
def plainDataJson (root : Nat) : CrateDataJson :=
  { root_file_id := root
    edition := "2018"
    display_name := none
    cfg_options := { options := [] }
    potential_cfg_options := { options := [] }
    env := { env := [] }
    proc_macro := [] }

/-- A document with one empty-string dependency name among otherwise
valid edges. -/
def skipDoc : CrateGraphJson :=
  { crates := [(0, plainDataJson 1), (1, plainDataJson 2)]
    deps := [{ «from» := 0, name := "", «to» := 1 },
             { «from» := 1, name := "ok", «to» := 0 }] }

/-- The same document with the malformed edge removed. -/
def skipDocPruned : CrateGraphJson :=
  { crates := [(0, plainDataJson 1), (1, plainDataJson 2)]
    deps := [{ «from» := 1, name := "ok", «to» := 0 }] }

/-- A one-unit document whose edition text is unrecognized. -/
def weirdEditionDoc : CrateGraphJson :=
  { crates := [(0, { plainDataJson 7 with edition := "20xy" })]
    deps := [] }

/-- A two-unit document with one edge, slots stored as 0 and 1. -/
def slotsDocA : CrateGraphJson :=
  { crates := [(0, plainDataJson 1), (1, plainDataJson 2)]
    deps := [{ «from» := 0, name := "dep", «to» := 1 }] }

/-- The same document with gap-ridden, out-of-order slot numbers. -/
def slotsDocB : CrateGraphJson :=
  { crates := [(7, plainDataJson 1), (3, plainDataJson 2)]
    deps := [{ «from» := 0, name := "dep", «to» := 1 }] }

/-! General list helpers. -/

theorem set_getElem_self {α : Type _} (l : List α) (i : Nat) (h : i < l.length) :
    l.set i l[i] = l := by
  apply List.ext_getElem (by simp)
  intro j h1 h2
  rw [List.getElem_set]
  split
  · rename_i hj
    subst hj
    rfl
  · rfl

/-! Lemmas about the encoder's stable slot sort. -/

theorem insertBySlot_perm (a : Nat × CrateDataJson) (l : List (Nat × CrateDataJson)) :
    (insertBySlot a l).Perm (a :: l) := by
  induction l with
  | nil => simp [insertBySlot]
  | cons b bs ih =>
    simp only [insertBySlot]
    split
    · exact List.Perm.refl _
    · exact (ih.cons b).trans (List.Perm.swap a b bs)

theorem sortBySlot_perm (l : List (Nat × CrateDataJson)) : (sortBySlot l).Perm l := by
  induction l with
  | nil => simp [sortBySlot]
  | cons a as ih => exact (insertBySlot_perm a (sortBySlot as)).trans (ih.cons a)

theorem pairwise_insertBySlot (a : Nat × CrateDataJson) (l : List (Nat × CrateDataJson))
    (h : l.Pairwise (fun x y => x.1 ≤ y.1)) :
    (insertBySlot a l).Pairwise (fun x y => x.1 ≤ y.1) := by
  induction l with
  | nil => simp [insertBySlot]
  | cons b bs ih =>
    simp only [insertBySlot]
    have hb := List.pairwise_cons.mp h
    split
    · rename_i hab
      refine List.Pairwise.cons (fun y hy => ?_) h
      rcases List.mem_cons.mp hy with rfl | hy
      · exact hab
      · exact le_trans hab (hb.1 y hy)
    · rename_i hab
      refine List.Pairwise.cons (fun y hy => ?_) (ih hb.2)
      rcases List.mem_cons.mp ((insertBySlot_perm a bs).mem_iff.mp hy) with rfl | hy'
      · exact Nat.le_of_not_le hab
      · exact hb.1 y hy'

theorem sortBySlot_sorted (l : List (Nat × CrateDataJson)) :
    (sortBySlot l).Pairwise (fun x y => x.1 ≤ y.1) := by
  induction l with
  | nil => simp [sortBySlot]
  | cons a as ih => exact pairwise_insertBySlot a (sortBySlot as) ih

theorem sortBySlot_eq_of_sorted (l : List (Nat × CrateDataJson))
    (h : l.Pairwise (fun x y => x.1 ≤ y.1)) : sortBySlot l = l := by
  induction l with
  | nil => rfl
  | cons a as ih =>
    have hp := List.pairwise_cons.mp h
    rw [sortBySlot, ih hp.2]
    cases as with
    | nil => rfl
    | cons b bs => simp [insertBySlot, hp.1 b (by simp)]

/-! Characterization of the encoder. -/

theorem foldl_encodeStep (g : CrateGraph) (ord : List Nat) :
    ∀ acc, ord.foldl (encodeStep g) acc =
      (acc.1 ++ ord.map (encEntry g), acc.2 ++ emittedDeps g ord) := by
  induction ord with
  | nil => intro acc; simp [emittedDeps]
  | cons id rest ih =>
    intro acc
    rw [List.foldl_cons, ih]
    simp [encodeStep, encEntry, emittedDeps, CrateGraph.depsOf]

theorem fromWithOrder_crates (g : CrateGraph) (ord : List Nat) :
    (CrateGraphJson.fromWithOrder g ord).crates = sortBySlot (ord.map (encEntry g)) := by
  simp [CrateGraphJson.fromWithOrder, foldl_encodeStep]

theorem fromWithOrder_deps (g : CrateGraph) (ord : List Nat) :
    (CrateGraphJson.fromWithOrder g ord).deps = emittedDeps g ord := by
  simp [CrateGraphJson.fromWithOrder, foldl_encodeStep]

/-- C5: Edge order preservation — for every graph and every node
iteration order, the encoded dependency list is exactly the emission
order (edges grouped by source unit in node-enumeration order, within
one unit in that unit's own dependency order); it is never re-sorted by
slot. -/
theorem encode_deps_emission_order (g : CrateGraph) (ord : List Nat) :
    (CrateGraphJson.fromWithOrder g ord).deps = emittedDeps g ord := by
  simp [CrateGraphJson.fromWithOrder, foldl_encodeStep]

/-- C4: Slot canonicalization — for every graph and every node
enumeration order (any permutation of the node ids), the encoded crate
list is sorted ascending by slot and contains no duplicate slots. -/
theorem encode_crates_slot_sorted (g : CrateGraph) (ord : List Nat)
    (h : ord.Perm (List.range g.arena.length)) :
    ((CrateGraphJson.fromWithOrder g ord).crates.map Prod.fst).Pairwise (· ≤ ·) ∧
    ((CrateGraphJson.fromWithOrder g ord).crates.map Prod.fst).Nodup := by
  rw [fromWithOrder_crates]
  constructor
  · exact List.pairwise_map.mpr (sortBySlot_sorted (ord.map (encEntry g)))
  · have hperm : ((sortBySlot (ord.map (encEntry g))).map Prod.fst).Perm ord := by
      have h1 := (sortBySlot_perm (ord.map (encEntry g))).map Prod.fst
      have h2 : List.map (Prod.fst ∘ encEntry g) ord = ord := by
        have hc : (Prod.fst ∘ encEntry g) = id := rfl
        rw [hc, List.map_id]
      rw [List.map_map, h2] at h1
      exact h1
    exact hperm.symm.nodup (h.symm.nodup (List.nodup_range _))

/-- C4 witness: encoding the three-unit scenario graph under the
scrambled enumeration order 2, 0, 1 still yields a slot-sorted,
duplicate-free crate list. -/
theorem encode_crates_slot_sorted_witness :
    ((CrateGraphJson.fromWithOrder scenarioGraph [2, 0, 1]).crates.map
      Prod.fst).Pairwise (· ≤ ·) ∧
    ((CrateGraphJson.fromWithOrder scenarioGraph [2, 0, 1]).crates.map Prod.fst).Nodup :=
  encode_crates_slot_sorted scenarioGraph [2, 0, 1] (by decide)

/-! Characterization of the decoder's unit reconstruction phase. -/

theorem foldl_addUnitStep (crates : List (Nat × CrateDataJson)) :
    ∀ g : CrateGraph, (crates.foldl addUnitStep g).arena
      = g.arena ++ crates.map (fun e => decodeCrateData e.2) := by
  induction crates with
  | nil => intro g; simp
  | cons e rest ih =>
    intro g
    rw [List.foldl_cons, ih]
    simp [addUnitStep, CrateGraph.add_crate_root, decodeCrateData]

theorem add_dep_ok_arena (g : CrateGraph) (fromId : Nat) (dep : Dependency)
    (g' : CrateGraph) (h : g.add_dep fromId dep = .ok g') :
    g'.arena = g.arena.set fromId
      { g.arena.getD fromId default with
        dependencies := (g.arena.getD fromId default).dependencies ++ [dep] }
      ∧ fromId < g.arena.length ∧ dep.crate_id < g.arena.length := by
  rw [CrateGraph.add_dep] at h
  split_ifs at h with h1 h2 h3 h4
  all_goals first
    | exact Except.noConfusion h
    | (injection h with h'
       exact ⟨by rw [← h'], Nat.lt_of_not_le h1, Nat.lt_of_not_le h2⟩)

theorem applyDep_arena_cases (g : CrateGraph) (dep : DepJson) :
    applyDep g dep = g ∨
    ∃ nm, CrateName.new dep.name = some nm ∧
      g.add_dep dep.«from» { crate_id := dep.«to», name := nm } = .ok (applyDep g dep) := by
  cases hn : CrateName.new dep.name with
  | none =>
    refine Or.inl ?_
    simp only [applyDep, hn]
  | some nm =>
    cases hd : g.add_dep dep.«from» { crate_id := dep.«to», name := nm } with
    | error e =>
      refine Or.inl ?_
      simp only [applyDep, hn, hd, Except.toOption, Option.getD_none]
    | ok g' =>
      refine Or.inr ⟨nm, rfl, ?_⟩
      simp only [applyDep, hn, hd, Except.toOption, Option.getD_some]

theorem stripDeps_decodeCrateData (d : CrateDataJson) :
    (decodeCrateData d).stripDeps = decodeCrateData d := rfl

theorem map_set_invariant {α β : Type _} (l : List α) (f : α → β) (i : Nat) (x d : α)
    (h : i < l.length) (hf : f x = f (l.getD i d)) : (l.set i x).map f = l.map f := by
  rw [List.map_set, hf, List.getD_eq_getElem l d h, ← List.getElem_map f]
  exact set_getElem_self _ _ (by simpa using h)

theorem applyDep_stripDeps (g : CrateGraph) (dep : DepJson) :
    (applyDep g dep).arena.map CrateData.stripDeps = g.arena.map CrateData.stripDeps := by
  rcases applyDep_arena_cases g dep with h | ⟨nm, _, hok⟩
  · rw [h]
  · obtain ⟨harena, hlt, -⟩ := add_dep_ok_arena _ _ _ _ hok
    rw [harena]
    exact map_set_invariant _ _ _ _ default hlt rfl

theorem applyDep_length (g : CrateGraph) (dep : DepJson) :
    (applyDep g dep).arena.length = g.arena.length := by
  have := congrArg List.length (applyDep_stripDeps g dep)
  simpa using this

theorem foldl_applyDep_stripDeps (deps : List DepJson) :
    ∀ g : CrateGraph, (deps.foldl applyDep g).arena.map CrateData.stripDeps
      = g.arena.map CrateData.stripDeps := by
  induction deps with
  | nil => intro g; rfl
  | cons d rest ih =>
    intro g
    rw [List.foldl_cons, ih, applyDep_stripDeps]

theorem to_crate_graph_stripDeps (j : CrateGraphJson) :
    (j.to_crate_graph).arena.map CrateData.stripDeps
      = j.crates.map (fun e => decodeCrateData e.2) := by
  rw [CrateGraphJson.to_crate_graph, foldl_applyDep_stripDeps, foldl_addUnitStep]
  simp [List.map_map, stripDeps_decodeCrateData]

theorem to_crate_graph_length (j : CrateGraphJson) :
    (j.to_crate_graph).arena.length = j.crates.length := by
  have := congrArg List.length (to_crate_graph_stripDeps j)
  simpa using this

/-- C6: Fresh positional identifiers on decode — decoding constructs one
unit per crate entry, in document order: the unit stored at the Nth
freshly assigned internal identifier (the Nth arena position, ids being
sequential from zero) carries the decoded metadata of the Nth document
entry, independently of the slot numbers stored in the document. -/
theorem decode_units_positional (j : CrateGraphJson) :
    (j.to_crate_graph).arena.length = j.crates.length ∧
    (j.to_crate_graph).arena.map CrateData.stripDeps
      = j.crates.map (fun e => decodeCrateData e.2) :=
  ⟨to_crate_graph_length j, to_crate_graph_stripDeps j⟩

theorem to_crate_graph_unit_meta (j : CrateGraphJson) (n : Nat) (h : n < j.crates.length) :
    ((j.to_crate_graph).arena.getD n default).stripDeps
      = decodeCrateData (j.crates.getD n default).2 := by
  have hlen := to_crate_graph_length j
  have h1 : n < (j.to_crate_graph).arena.length := by rw [hlen]; exact h
  have hmap := congrArg (fun l => l[n]?) (to_crate_graph_stripDeps j)
  simp only [List.getElem?_map] at hmap
  rw [List.getD_eq_getElem _ _ h1, List.getD_eq_getElem _ _ h]
  rw [List.getElem?_eq_getElem h1, List.getElem?_eq_getElem h] at hmap
  simpa using hmap

/-- C7: Edition fallback — for every document and entry whose edition
text does not parse as a member of the closed edition enumeration, the
decoder assigns Edition.CURRENT to the constructed unit; edition
decoding never produces an error. -/
theorem edition_fallback (j : CrateGraphJson) (n : Nat) (h : n < j.crates.length)
    (hbad : Edition.parse (j.crates.getD n default).2.edition = none) :
    ((j.to_crate_graph).arena.getD n default).edition = Edition.CURRENT := by
  have hm := to_crate_graph_unit_meta j n h
  have he := congrArg CrateData.edition hm
  have hs : (((j.to_crate_graph).arena.getD n default).stripDeps).edition
      = ((j.to_crate_graph).arena.getD n default).edition := rfl
  rw [hs] at he
  rw [he]
  simp only [decodeCrateData]
  rw [hbad]
  rfl

/-- C7 witness: the edition text 20xy is unrecognized and decodes to the
current default edition. -/
theorem edition_fallback_witness :
    ((weirdEditionDoc.to_crate_graph).arena.getD 0 default).edition = Edition.CURRENT :=
  edition_fallback weirdEditionDoc 0 (by decide) (by decide)

/-- C9: proc_macro is always empty on encode — for every unit's
metadata, the wire form emitted by CrateDataJson::from has an empty
proc_macro list, regardless of the unit's actual metadata. -/
theorem proc_macro_always_empty (crate_data : CrateData) :
    CrateDataJson.proc_macro (CrateDataJson.«from» crate_data) = [] := rfl

/-- C10: Slot values do not influence decoding — two documents that are
identical except for the slot components of their crate entries decode
to equal graphs. -/
theorem decode_ignores_slots (c1 c2 : List (Nat × CrateDataJson)) (deps : List DepJson)
    (h : c1.map Prod.snd = c2.map Prod.snd) :
    CrateGraphJson.to_crate_graph { crates := c1, deps := deps }
      = CrateGraphJson.to_crate_graph { crates := c2, deps := deps } := by
  have harena : c1.map (fun e => decodeCrateData e.2) = c2.map (fun e => decodeCrateData e.2) := by
    have e1 : c1.map (fun e => decodeCrateData e.2)
        = (c1.map Prod.snd).map decodeCrateData := by rw [List.map_map]; rfl
    have e2 : c2.map (fun e => decodeCrateData e.2)
        = (c2.map Prod.snd).map decodeCrateData := by rw [List.map_map]; rfl
    rw [e1, e2, h]
  have hunits : c1.foldl addUnitStep { arena := [] } = c2.foldl addUnitStep { arena := [] } := by
    have e1 := foldl_addUnitStep c1 { arena := [] }
    have e2 := foldl_addUnitStep c2 { arena := [] }
    have : (c1.foldl addUnitStep { arena := [] }).arena
        = (c2.foldl addUnitStep { arena := [] }).arena := by
      rw [e1, e2]
      simpa using harena
    cases hg1 : c1.foldl addUnitStep { arena := [] }
    cases hg2 : c2.foldl addUnitStep { arena := [] }
    rw [hg1, hg2] at this
    simpa using this
  rw [CrateGraphJson.to_crate_graph, CrateGraphJson.to_crate_graph]
  simp only
  rw [hunits]

/-- C10 witness: two concrete documents differing only in their stored
slot numbers (0,1 versus 7,3) decode to the same graph. -/
theorem decode_ignores_slots_witness :
    CrateGraphJson.to_crate_graph slotsDocA = CrateGraphJson.to_crate_graph slotsDocB :=
  decode_ignores_slots slotsDocA.crates slotsDocB.crates slotsDocA.deps (by decide)

/-! Error handling of the decoder's edge replay. -/

theorem applyDep_of_not_accepted (g : CrateGraph) (dep : DepJson)
    (h : depAccepted g dep = false) : applyDep g dep = g := by
  cases hn : CrateName.new dep.name with
  | none => simp only [applyDep, hn]
  | some nm =>
    cases hd : g.add_dep dep.«from» { crate_id := dep.«to», name := nm } with
    | error e => simp only [applyDep, hn, hd, Except.toOption, Option.getD_none]
    | ok g' =>
      exfalso
      simp only [depAccepted, hn, hd, Except.toOption, Option.isSome_some] at h
      exact Bool.noConfusion h

/-- C2: Graceful edge rejection on decode — decoding never surfaces an
error: an edge whose dependency name fails validation, or which the
underlying graph rejects at its point in the replay (cycle introduction,
duplicate (from, name), unknown endpoint), is silently skipped, and the
document decodes exactly as if that edge were absent, with all remaining
valid edges still applied. -/
theorem decode_skips_rejected_edges (j : CrateGraphJson) (l1 : List DepJson)
    (dep : DepJson) (l2 : List DepJson) (hsplit : j.deps = l1 ++ dep :: l2)
    (hrej : depAccepted (l1.foldl applyDep (j.crates.foldl addUnitStep { arena := [] })) dep
      = false) :
    j.to_crate_graph
      = CrateGraphJson.to_crate_graph { crates := j.crates, deps := l1 ++ l2 } := by
  rw [CrateGraphJson.to_crate_graph, CrateGraphJson.to_crate_graph]
  simp only
  rw [hsplit, List.foldl_append, List.foldl_append, List.foldl_cons,
    applyDep_of_not_accepted _ _ hrej]

/-- C2 witness: a document whose first edge carries the empty-string
name decodes exactly as the document without that edge. -/
theorem decode_skips_rejected_edges_witness :
    skipDoc.to_crate_graph = CrateGraphJson.to_crate_graph
      { crates := skipDoc.crates, deps := [{ «from» := 1, name := "ok", «to» := 0 }] } :=
  decode_skips_rejected_edges skipDoc []
    { «from» := 0, name := "", «to» := 1 }
    [{ «from» := 1, name := "ok", «to» := 0 }] (by decide) (by decide)

/-- C8: Concrete scenario — three units with slots 0,1,2 and edges
(0, dep_b, 1) and (1, dep_c, 2): encoding yields exactly those two deps
in that order, and decoding the encoded document yields a graph in which
unit 0 depends on unit 1 under dep_b and unit 1 depends on unit 2 under
dep_c. -/
theorem concrete_scenario :
    (CrateGraphJson.«from» scenarioGraph).deps =
      [{ «from» := 0, name := "dep_b", «to» := 1 },
       { «from» := 1, name := "dep_c", «to» := 2 }] ∧
    (∃ d ∈ (CrateGraphJson.«from» scenarioGraph).to_crate_graph.depsOf 0,
      d.name = "dep_b" ∧ d.crate_id = 1) ∧
    (∃ d ∈ (CrateGraphJson.«from» scenarioGraph).to_crate_graph.depsOf 1,
      d.name = "dep_c" ∧ d.crate_id = 2) := by decide

/-! The configuration predicate codec. -/

theorem foldl_insert_values (k : String) (vs : List String) :
    ∀ c : CfgOptions, (∀ v ∈ vs, CfgAtom.keyValue k v ∉ c.atoms) →
    (vs.map (CfgAtom.keyValue k)).Nodup →
    (vs.foldl (fun acc value => acc.insert_key_value k value) c).atoms
      = c.atoms ++ vs.map (CfgAtom.keyValue k) := by
  induction vs with
  | nil => intro c _ _; simp
  | cons v rest ih =>
    intro c hni hnd
    rw [List.foldl_cons]
    have hv : CfgAtom.keyValue k v ∉ c.atoms := hni v (by simp)
    have hstep : (c.insert_key_value k v).atoms = c.atoms ++ [CfgAtom.keyValue k v] := by
      rw [CfgOptions.insert_key_value, if_neg hv]
    have hcons : CfgAtom.keyValue k v ∉ rest.map (CfgAtom.keyValue k) ∧
        (rest.map (CfgAtom.keyValue k)).Nodup := by
      rw [List.map_cons, List.nodup_cons] at hnd
      exact hnd
    have hni' : ∀ v' ∈ rest, CfgAtom.keyValue k v' ∉ (c.insert_key_value k v).atoms := by
      intro v' hv'
      rw [hstep]
      simp only [List.mem_append, List.mem_singleton]
      rintro (hc | hc)
      · exact hni v' (by simp [hv']) hc
      · have hmem : CfgAtom.keyValue k v' ∈ rest.map (CfgAtom.keyValue k) :=
          List.mem_map_of_mem _ hv'
        rw [hc] at hmem
        exact hcons.1 hmem
    rw [ih (c.insert_key_value k v) hni' hcons.2, hstep, List.append_assoc]
    rfl

theorem foldl_insert_pairs (pairs : List (String × List String)) :
    ∀ c : CfgOptions, (∀ a ∈ pairsAtoms pairs, a ∉ c.atoms) → (pairsAtoms pairs).Nodup →
    (pairs.foldl
      (fun acc kv => kv.2.foldl (fun acc value => acc.insert_key_value kv.1 value) acc)
      c).atoms = c.atoms ++ pairsAtoms pairs := by
  induction pairs with
  | nil => intro c _ _; simp [pairsAtoms]
  | cons kv rest ih =>
    intro c hni hnd
    rw [List.foldl_cons]
    have hnd' := List.nodup_append.mp (by simpa [pairsAtoms] using hnd)
    have hhead : ∀ v ∈ kv.2, CfgAtom.keyValue kv.1 v ∉ c.atoms := by
      intro v hv
      exact hni _ (by simp [pairsAtoms, List.mem_append, List.mem_map_of_mem _ hv])
    have hinner := foldl_insert_values kv.1 kv.2 c hhead hnd'.1
    have hni' : ∀ a ∈ pairsAtoms rest,
        a ∉ (kv.2.foldl (fun acc value => acc.insert_key_value kv.1 value) c).atoms := by
      intro a ha
      rw [hinner]
      simp only [List.mem_append]
      rintro (hc | hc)
      · exact hni a (by simp [pairsAtoms, List.mem_append, ha]) hc
      · exact hnd'.2.2 hc ha
    rw [ih _ hni' hnd'.2.1, hinner, List.append_assoc]
    simp [pairsAtoms]

theorem mem_pairsAtoms (pairs : List (String × List String)) (a : CfgAtom) :
    a ∈ pairsAtoms pairs ↔ ∃ kv ∈ pairs, ∃ v ∈ kv.2, a = CfgAtom.keyValue kv.1 v := by
  induction pairs with
  | nil => simp [pairsAtoms]
  | cons kv rest ih =>
    simp only [pairsAtoms, List.mem_append, List.mem_map, ih, List.mem_cons]
    constructor
    · rintro (⟨v, hv, rfl⟩ | ⟨kv', hkv', v, hv, rfl⟩)
      · exact ⟨kv, Or.inl rfl, v, hv, rfl⟩
      · exact ⟨kv', Or.inr hkv', v, hv, rfl⟩
    · rintro ⟨kv', hkv' | hkv', v, hv, rfl⟩
      · exact Or.inl ⟨v, hkv' ▸ hv, by rw [hkv']⟩
      · exact Or.inr ⟨kv', hkv', v, hv, rfl⟩

theorem mem_get_cfg_values (c : CfgOptions) (k v : String) :
    v ∈ c.get_cfg_values k ↔ CfgAtom.keyValue k v ∈ c.atoms := by
  simp only [CfgOptions.get_cfg_values, List.mem_filterMap]
  constructor
  · rintro ⟨a, ha, hfa⟩
    cases a with
    | flag _ => simp at hfa
    | keyValue k' v' =>
      simp only at hfa
      split_ifs at hfa with hk
      injection hfa with hv
      subst hk
      subst hv
      exact ha
  · intro ha
    exact ⟨CfgAtom.keyValue k v, ha, by simp⟩

theorem mem_get_cfg_keys (c : CfgOptions) (k : String) :
    k ∈ c.get_cfg_keys ↔ ∃ a ∈ c.atoms, a.key = k := by
  simp [CfgOptions.get_cfg_keys, List.mem_dedup, List.mem_map]

theorem nodup_get_cfg_values (c : CfgOptions) (h : c.atoms.Nodup) (k : String) :
    (c.get_cfg_values k).Nodup := by
  apply List.Nodup.filterMap ?_ h
  intro a a' b hb hb'
  cases a with
  | flag _ => simp at hb
  | keyValue k1 v1 =>
    cases a' with
    | flag _ => simp at hb'
    | keyValue k2 v2 =>
      simp only [Option.mem_def] at hb hb'
      split_ifs at hb with h1
      split_ifs at hb' with h2
      injection hb with e1
      injection hb' with e2
      subst h1
      subst h2
      rw [e1, e2]

theorem nodup_pairsAtoms_keyed (c : CfgOptions) (h : c.atoms.Nodup) :
    ∀ ks : List String, ks.Nodup →
    (pairsAtoms (ks.map (fun key => (key, c.get_cfg_values key)))).Nodup := by
  intro ks
  induction ks with
  | nil => intro _; simp [pairsAtoms]
  | cons k rest ih =>
    intro hnd
    have hk := List.nodup_cons.mp hnd
    simp only [List.map_cons, pairsAtoms]
    rw [List.nodup_append]
    refine ⟨?_, ih hk.2, ?_⟩
    · exact (nodup_get_cfg_values c h k).map (fun v v' e => by
        injection e)
    · intro a ha ha'
      obtain ⟨v, hv, rfl⟩ := List.mem_map.mp ha
      rw [mem_pairsAtoms] at ha'
      obtain ⟨kv', hkv', v', hv', heq⟩ := ha'
      obtain ⟨k', hk', rfl⟩ := List.mem_map.mp hkv'
      simp only [CfgAtom.keyValue.injEq] at heq
      exact hk.1 (heq.1 ▸ hk')

theorem to_cfg_options_from_atoms (c : CfgOptions) (h : c.atoms.Nodup) :
    ((CfgOptionsJson.«from» c).to_cfg_options).atoms
      = pairsAtoms ((CfgOptionsJson.«from» c).options) := by
  rw [CfgOptionsJson.to_cfg_options]
  have hnd : (pairsAtoms ((CfgOptionsJson.«from» c).options)).Nodup :=
    nodup_pairsAtoms_keyed c h c.get_cfg_keys (List.nodup_dedup _)
  have := foldl_insert_pairs ((CfgOptionsJson.«from» c).options)
    { atoms := [] } (by simp) hnd
  simpa using this

/-- C3 (amended): Configuration predicate round trip — for every
duplicate-free configuration predicate set, decoding its encoded wire
form rehydrates exactly the key-value predicates: a key-value pair
survives the round trip if and only if it was present, while a key with
zero values (a boolean flag predicate) is dropped. -/
theorem cfg_roundtrip_keyed_values (c : CfgOptions) (h : c.atoms.Nodup) :
    (∀ k v, CfgAtom.keyValue k v ∈ ((CfgOptionsJson.«from» c).to_cfg_options).atoms ↔
      CfgAtom.keyValue k v ∈ c.atoms) ∧
    (∀ k, CfgAtom.flag k ∉ ((CfgOptionsJson.«from» c).to_cfg_options).atoms) := by
  rw [to_cfg_options_from_atoms c h]
  constructor
  · intro k v
    rw [mem_pairsAtoms]
    constructor
    · rintro ⟨kv, hkv, v', hv', heq⟩
      simp only [CfgOptionsJson.«from», List.mem_map] at hkv
      obtain ⟨k', _, rfl⟩ := hkv
      simp only [CfgAtom.keyValue.injEq] at heq
      rw [heq.1, heq.2]
      exact (mem_get_cfg_values c k' v').mp hv'
    · intro hm
      refine ⟨(k, c.get_cfg_values k), ?_, v, (mem_get_cfg_values c k v).mpr hm, rfl⟩
      simp only [CfgOptionsJson.«from», List.mem_map]
      exact ⟨k, (mem_get_cfg_keys c k).mpr ⟨_, hm, rfl⟩, rfl⟩
  · intro k hmem
    rw [mem_pairsAtoms] at hmem
    obtain ⟨kv, _, v, _, heq⟩ := hmem
    exact CfgAtom.noConfusion heq

/-- C3 witness: for a set with one key-value predicate and one flag, the
key-value pair survives the round trip and the flag is dropped. -/
theorem cfg_roundtrip_keyed_values_witness :
    (CfgAtom.keyValue "feature" "std"
        ∈ ((CfgOptionsJson.«from» mixedCfg).to_cfg_options).atoms ↔
      CfgAtom.keyValue "feature" "std" ∈ mixedCfg.atoms) ∧
    CfgAtom.flag "test" ∉ ((CfgOptionsJson.«from» mixedCfg).to_cfg_options).atoms :=
  ⟨(cfg_roundtrip_keyed_values mixedCfg (by decide)).1 "feature" "std",
   (cfg_roundtrip_keyed_values mixedCfg (by decide)).2 "test"⟩

/-- C3 counterexample: the claim fails for a key with zero values — a
set holding only the boolean flag test has test among its keys, yet
decoding its encoded wire form yields a set without that key (indeed
with no atoms at all), so the zero-value pair is not rehydrated. -/
theorem cfg_flag_key_dropped :
    "test" ∈ flagOnlyCfg.get_cfg_keys ∧
    ((CfgOptionsJson.«from» flagOnlyCfg).options = [("test", [])]) ∧
    "test" ∉ ((CfgOptionsJson.«from» flagOnlyCfg).to_cfg_options).get_cfg_keys := by
  decide

/-! Round-trip machinery: reading off the well-formedness predicates. -/

theorem WFB_spec (g : CrateGraph) (h : g.WFB = true) (u : Nat)
    (hu : u < g.arena.length) (d : Dependency) (hd : d ∈ g.depsOf u) :
    d.crate_id < g.arena.length ∧ is_valid_dependency_name d.name = true ∧
    g.reaches (g.arena.length + 1) d.crate_id u = false := by
  rw [CrateGraph.WFB, List.all_eq_true] at h
  have h1 := h u (List.mem_range.mpr hu)
  rw [List.all_eq_true] at h1
  have h2 := h1 d hd
  simp only [Bool.and_eq_true, decide_eq_true_eq, Bool.not_eq_true'] at h2
  exact ⟨h2.1.1, h2.1.2, h2.2⟩

theorem namesUnique_spec (g : CrateGraph) (h : g.namesUniquePerCrate = true)
    (u : Nat) (hu : u < g.arena.length) :
    ((g.depsOf u).map Dependency.name).Nodup := by
  rw [CrateGraph.namesUniquePerCrate, List.all_eq_true] at h
  have := h u (List.mem_range.mpr hu)
  simpa using this

/-! Round-trip machinery: reachability is monotone in the edge sets. -/

theorem reaches_mono (s g : CrateGraph)
    (hsub : ∀ w, ∀ d ∈ s.depsOf w, d ∈ g.depsOf w) :
    ∀ fuel a b, s.reaches fuel a b = true → g.reaches fuel a b = true := by
  intro fuel
  induction fuel with
  | zero => intro a b h; exact absurd h (by simp [CrateGraph.reaches])
  | succ n ih =>
    intro a b h
    rw [CrateGraph.reaches] at h ⊢
    rw [Bool.or_eq_true] at h ⊢
    rcases h with h | h
    · exact Or.inl h
    · rw [List.any_eq_true] at h
      obtain ⟨d, hd, hr⟩ := h
      exact Or.inr (List.any_eq_true.mpr ⟨d, hsub a d hd, ih _ _ hr⟩)

/-! Round-trip machinery: pointwise descriptions of graph states. -/

theorem set_getD_self {α : Type _} [Inhabited α] (l : List α) (i : Nat)
    (h : i < l.length) : l.set i (l.getD i default) = l := by
  rw [List.getD_eq_getElem _ _ h]
  exact set_getElem_self l i h

theorem getD_set_self {α : Type _} [Inhabited α] (l : List α) (u : Nat) (x : α)
    (h : u < l.length) : (l.set u x).getD u default = x := by
  rw [List.getD_eq_getElem _ _ (by simpa using h)]
  exact List.getElem_set_self (by simpa using h)

theorem getD_set_ne {α : Type _} [Inhabited α] (l : List α) (u w : Nat) (x : α)
    (h : w ≠ u) : (l.set u x).getD w default = l.getD w default := by
  rw [List.getD_eq_getElem?_getD, List.getD_eq_getElem?_getD,
    List.getElem?_set_ne (Ne.symm h)]

theorem crateGraph_ext_getD (s t : CrateGraph)
    (hlen : s.arena.length = t.arena.length)
    (h : ∀ w, s.arena.getD w default = t.arena.getD w default) : s = t := by
  cases s with | mk a1 =>
  cases t with | mk a2 =>
  simp only at hlen h ⊢
  congr 1
  apply List.ext_getElem hlen
  intro i h1 h2
  have hi := h i
  rw [List.getD_eq_getElem _ _ h1, List.getD_eq_getElem _ _ h2] at hi
  exact hi

theorem getD_map_range {α : Type _} [Inhabited α] (n : Nat) (f : Nat → α) (w : Nat) :
    ((List.range n).map f).getD w default = if w < n then f w else default := by
  by_cases h : w < n
  · rw [if_pos h]
    have hlen : w < ((List.range n).map f).length := by simpa using h
    rw [List.getD_eq_getElem _ _ hlen]
    simp [List.getElem_map, List.getElem_range]
  · rw [if_neg h]
    exact List.getD_eq_default _ _ (by simpa using Nat.le_of_not_lt h)

theorem setDepsAt_length (s : CrateGraph) (u : Nat) (ds : List Dependency) :
    (setDepsAt s u ds).arena.length = s.arena.length := by
  rw [setDepsAt]
  exact List.length_set _ _ _

theorem depsOf_setDepsAt_self (s : CrateGraph) (u : Nat) (ds : List Dependency)
    (h : u < s.arena.length) : (setDepsAt s u ds).depsOf u = ds := by
  rw [setDepsAt, CrateGraph.depsOf]
  simp only
  rw [getD_set_self _ _ _ h]

theorem depsOf_setDepsAt_ne (s : CrateGraph) (u : Nat) (ds : List Dependency)
    (w : Nat) (h : w ≠ u) : (setDepsAt s u ds).depsOf w = s.depsOf w := by
  rw [setDepsAt, CrateGraph.depsOf, CrateGraph.depsOf]
  simp only
  rw [getD_set_ne _ _ _ _ h]

theorem getD_setDepsAt_self (s : CrateGraph) (u : Nat) (ds : List Dependency)
    (h : u < s.arena.length) : (setDepsAt s u ds).arena.getD u default
      = { s.arena.getD u default with dependencies := ds } := by
  rw [setDepsAt]
  exact getD_set_self _ _ _ h

theorem getD_setDepsAt_ne (s : CrateGraph) (u : Nat) (ds : List Dependency)
    (w : Nat) (h : w ≠ u) : (setDepsAt s u ds).arena.getD w default
      = s.arena.getD w default := by
  rw [setDepsAt]
  exact getD_set_ne _ _ _ _ h

theorem setDepsAt_setDepsAt (s : CrateGraph) (u : Nat) (ds1 ds2 : List Dependency)
    (h : u < s.arena.length) :
    setDepsAt (setDepsAt s u ds1) u ds2 = setDepsAt s u ds2 := by
  apply crateGraph_ext_getD
  · rw [setDepsAt_length, setDepsAt_length, setDepsAt_length]
  · intro w
    by_cases hw : w = u
    · subst hw
      rw [getD_setDepsAt_self _ _ _ (by rw [setDepsAt_length]; exact h),
        getD_setDepsAt_self _ _ _ h, getD_setDepsAt_self _ _ _ h]
    · rw [getD_setDepsAt_ne _ _ _ _ hw, getD_setDepsAt_ne _ _ _ _ hw,
        getD_setDepsAt_ne _ _ _ _ hw]

theorem roundTripTarget_length (g : CrateGraph) :
    (roundTripTarget g).arena.length = g.arena.length := by
  rw [roundTripTarget]
  exact List.length_map _ _

theorem stripDeps_default : (default : CrateData).stripDeps = default := rfl

theorem decodedUnit_default : decodedUnit default = default := by decide

theorem roundTripTarget_getD (g : CrateGraph) (w : Nat) :
    (roundTripTarget g).arena.getD w default
      = { decodedUnit (g.arena.getD w default) with
          dependencies := (g.arena.getD w default).dependencies } := by
  by_cases h : w < g.arena.length
  · have h2 : w < (roundTripTarget g).arena.length := by
      rw [roundTripTarget_length]; exact h
    rw [List.getD_eq_getElem _ _ h2, List.getD_eq_getElem _ _ h]
    simp [roundTripTarget, List.getElem_map]
  · have hle := Nat.le_of_not_lt h
    have h1 : (roundTripTarget g).arena.getD w default = default :=
      List.getD_eq_default _ _ (by rw [roundTripTarget_length]; exact hle)
    have h2 : g.arena.getD w default = default := List.getD_eq_default _ _ hle
    rw [h1, h2]
    decide

theorem roundTripTarget_depsOf (g : CrateGraph) (w : Nat) :
    (roundTripTarget g).depsOf w = g.depsOf w := by
  rw [CrateGraph.depsOf, CrateGraph.depsOf, roundTripTarget_getD]

/-! Round-trip machinery: replaying one unit's edges, then all units. -/

theorem replay_one_crate (g : CrateGraph) (hwf : g.WFB = true)
    (hu : g.namesUniquePerCrate = true) (u : Nat) (hun : u < g.arena.length) :
    ∀ (ds done : List Dependency) (s : CrateGraph),
    s.arena.length = g.arena.length →
    (∀ w, ∀ d ∈ s.depsOf w, d ∈ g.depsOf w) →
    g.depsOf u = done ++ ds →
    s.depsOf u = done →
    ((ds.map (fun dep =>
        ({ «from» := u, name := dep.name, «to» := dep.crate_id } : DepJson))).foldl
      applyDep s) = setDepsAt s u (done ++ ds) := by
  intro ds
  induction ds with
  | nil =>
    intro done s hlen hsub hsplit hdone
    rw [CrateGraph.depsOf] at hdone
    have hlt : u < s.arena.length := by rw [hlen]; exact hun
    have hrec : ({ s.arena.getD u default with dependencies := done } : CrateData)
        = s.arena.getD u default := by rw [← hdone]
    simp only [List.map_nil, List.foldl_nil, List.append_nil]
    rw [setDepsAt, hrec, set_getD_self s.arena u hlt]
  | cons d rest ih =>
    intro done s hlen hsub hsplit hdone
    have hlt : u < s.arena.length := by rw [hlen]; exact hun
    have hd_mem : d ∈ g.depsOf u := by rw [hsplit]; simp
    have hspec := WFB_spec g hwf u hun d hd_mem
    have hvalid : CrateName.new d.name = some d.name := by
      rw [CrateName.new, if_pos hspec.2.1]
    have hct : d.crate_id < s.arena.length := by rw [hlen]; exact hspec.1
    have hdone' : (s.arena.getD u default).dependencies = done := hdone
    have hdupb : (s.depsOf u).any (fun d' => d'.name == d.name) = false := by
      rw [List.any_eq_false]
      intro d' hd'
      have hnd := namesUnique_spec g hu u hun
      rw [hsplit, List.map_append, List.nodup_append] at hnd
      have hmem1 : d'.name ∈ done.map Dependency.name := by
        rw [hdone] at hd'
        exact List.mem_map_of_mem _ hd'
      intro hbeq
      have heq : d'.name = d.name := by simpa using hbeq
      exact hnd.2.2 hmem1 (by rw [heq]; simp)
    have hcyc : s.reaches (s.arena.length + 1) d.crate_id u = false := by
      rw [hlen]
      by_contra hc
      rw [Bool.not_eq_false] at hc
      have hg := reaches_mono s g hsub _ _ _ hc
      rw [hspec.2.2] at hg
      exact Bool.noConfusion hg
    have hadd : s.add_dep u { crate_id := d.crate_id, name := d.name }
        = .ok (setDepsAt s u (done ++ [d])) := by
      simp only [CrateGraph.add_dep]
      rw [if_neg (Nat.not_le.mpr hlt), if_neg (Nat.not_le.mpr hct),
        if_neg (by simp [hdupb]), if_neg (by simp [hcyc]), setDepsAt, hdone']
    have happ : applyDep s ({ «from» := u, name := d.name, «to» := d.crate_id } : DepJson)
        = setDepsAt s u (done ++ [d]) := by
      simp only [applyDep, hvalid, hadd, Except.toOption, Option.getD_some]
    simp only [List.map_cons, List.foldl_cons]
    rw [happ]
    have hlen2 : (setDepsAt s u (done ++ [d])).arena.length = g.arena.length := by
      rw [setDepsAt_length]; exact hlen
    have hsub2 : ∀ w, ∀ d' ∈ (setDepsAt s u (done ++ [d])).depsOf w, d' ∈ g.depsOf w := by
      intro w d' hd'
      by_cases hw : w = u
      · subst hw
        rw [depsOf_setDepsAt_self _ _ _ hlt] at hd'
        rw [hsplit]
        rcases List.mem_append.mp hd' with hc | hc
        · exact List.mem_append.mpr (Or.inl hc)
        · rw [List.mem_singleton] at hc
          subst hc
          simp
      · rw [depsOf_setDepsAt_ne _ _ _ _ hw] at hd'
        exact hsub w d' hd'
    have hsplit2 : g.depsOf u = (done ++ [d]) ++ rest := by
      rw [hsplit, List.append_assoc]
      rfl
    have hdone2 : (setDepsAt s u (done ++ [d])).depsOf u = done ++ [d] :=
      depsOf_setDepsAt_self _ _ _ hlt
    rw [ih (done ++ [d]) (setDepsAt s u (done ++ [d])) hlen2 hsub2 hsplit2 hdone2,
      setDepsAt_setDepsAt _ _ _ _ hlt, List.append_assoc]
    rfl

theorem replay_crates (g : CrateGraph) (hwf : g.WFB = true)
    (hu : g.namesUniquePerCrate = true) :
    ∀ (us : List Nat) (s : CrateGraph),
    s.arena.length = g.arena.length →
    us.Nodup → (∀ u ∈ us, u < g.arena.length) →
    (∀ w, s.arena.getD w default =
      if w ∈ us then ((roundTripTarget g).arena.getD w default).stripDeps
      else (roundTripTarget g).arena.getD w default) →
    (emittedDeps g us).foldl applyDep s = roundTripTarget g := by
  intro us
  induction us with
  | nil =>
    intro s hlen hnd hbound hpt
    simp only [emittedDeps, List.foldl_nil]
    apply crateGraph_ext_getD s (roundTripTarget g)
    · rw [hlen, roundTripTarget_length]
    · intro w
      have hw := hpt w
      rwa [if_neg (by simp)] at hw
  | cons u rest ih =>
    intro s hlen hnd hbound hpt
    have hun : u < g.arena.length := hbound u (by simp)
    have hlt : u < s.arena.length := by rw [hlen]; exact hun
    have hcons := List.nodup_cons.mp hnd
    have hdeps_s : s.depsOf u = [] := by
      rw [CrateGraph.depsOf, hpt u, if_pos (by simp)]
      rfl
    have hsub : ∀ w, ∀ d ∈ s.depsOf w, d ∈ g.depsOf w := by
      intro w d hd
      rw [CrateGraph.depsOf, hpt w] at hd
      split_ifs at hd
      · exact (List.not_mem_nil d hd).elim
      · rw [← roundTripTarget_depsOf g w, CrateGraph.depsOf]
        exact hd
    simp only [emittedDeps, List.foldl_append]
    have hinner := replay_one_crate g hwf hu u hun (g.depsOf u) [] s hlen hsub
      (by simp) hdeps_s
    rw [List.nil_append] at hinner
    rw [hinner]
    apply ih (setDepsAt s u (g.depsOf u)) ?_ hcons.2 (fun v hv => hbound v (by simp [hv])) ?_
    · rw [setDepsAt_length]; exact hlen
    · intro w
      by_cases hw : w = u
      · subst hw
        rw [getD_setDepsAt_self _ _ _ hlt, hpt w, if_pos (by simp), if_neg hcons.1,
          roundTripTarget_getD]
        rfl
      · rw [getD_setDepsAt_ne _ _ _ _ hw, hpt w]
        by_cases hwr : w ∈ rest
        · rw [if_pos (by simp [hwr]), if_pos hwr]
        · rw [if_neg (by simp [hw, hwr]), if_neg hwr]

theorem from_decode_eq_target (g : CrateGraph) (hwf : g.WFB = true)
    (hu : g.namesUniquePerCrate = true) :
    (CrateGraphJson.«from» g).to_crate_graph = roundTripTarget g := by
  have hcr : (CrateGraphJson.«from» g).crates
      = (List.range g.arena.length).map (encEntry g) := by
    rw [CrateGraphJson.«from», fromWithOrder_crates]
    apply sortBySlot_eq_of_sorted
    apply List.pairwise_map.mpr
    apply (List.pairwise_lt_range _).imp
    intro a b hab
    exact Nat.le_of_lt hab
  have hdeps : (CrateGraphJson.«from» g).deps
      = emittedDeps g (List.range g.arena.length) := by
    rw [CrateGraphJson.«from», fromWithOrder_deps]
  rw [CrateGraphJson.to_crate_graph, hcr, hdeps]
  set s0 := ((List.range g.arena.length).map (encEntry g)).foldl addUnitStep
    { arena := [] } with hs0
  have hs0arena : s0.arena = (List.range g.arena.length).map
      ((fun e => decodeCrateData e.2) ∘ encEntry g) := by
    rw [hs0, foldl_addUnitStep, List.map_map]
    simp
  have hs0len : s0.arena.length = g.arena.length := by
    rw [hs0arena]
    simp
  have hs0pt : ∀ w, s0.arena.getD w default =
      if w ∈ List.range g.arena.length
      then ((roundTripTarget g).arena.getD w default).stripDeps
      else (roundTripTarget g).arena.getD w default := by
    intro w
    rw [hs0arena, getD_map_range]
    by_cases h : w < g.arena.length
    · rw [if_pos h, if_pos (List.mem_range.mpr h), roundTripTarget_getD]
      rfl
    · rw [if_neg h, if_neg (by simpa using h), roundTripTarget_getD,
        List.getD_eq_default _ _ (Nat.le_of_not_lt h)]
      decide
  exact replay_crates g hwf hu (List.range g.arena.length) s0 hs0len
    (List.nodup_range _) (fun v hv => List.mem_range.mp hv) hs0pt

/-- C1 (amended): Round-trip identity of structure — for every
well-formed graph (dependency targets in range, names valid, acyclic)
whose dependency names are unique per source unit, decoding the encoded
document yields a graph with the same number of units, and every edge
(u, name, v) of the graph is present between the positionally
corresponding units of the reconstructed graph. -/
theorem roundtrip_structure (g : CrateGraph) (hwf : g.WFB = true)
    (hu : g.namesUniquePerCrate = true) :
    (CrateGraphJson.«from» g).to_crate_graph.arena.length = g.arena.length ∧
    ∀ u : Nat, ∀ d ∈ g.depsOf u,
      d ∈ (CrateGraphJson.«from» g).to_crate_graph.depsOf u := by
  rw [from_decode_eq_target g hwf hu]
  refine ⟨roundTripTarget_length g, fun u d hd => ?_⟩
  rw [roundTripTarget_depsOf]
  exact hd

/-- C1 witness: the three-unit scenario graph is well-formed with
per-unit unique names, and its dep_b edge survives the round trip. -/
theorem roundtrip_structure_witness :
    ({ crate_id := 1, name := "dep_b" } : Dependency)
      ∈ (CrateGraphJson.«from» scenarioGraph).to_crate_graph.depsOf 0 :=
  (roundtrip_structure scenarioGraph (by decide) (by decide)).2 0
    { crate_id := 1, name := "dep_b" } (by decide)

/-- C1 counterexample: the claim as stated fails — a well-formed graph
whose dependency names are unique per (from, to) pair but not per source
unit (unit 0 refers to units 1 and 2 both under the name a) loses its
second edge in the round trip: no edge named a to unit 2 exists at unit
0 of the reconstructed graph, although the unit count is preserved. -/
theorem roundtrip_structure_counterexample :
    twoTargetsGraph.WFB = true ∧
    twoTargetsGraph.namesUniquePerFromTo = true ∧
    ({ crate_id := 2, name := "a" } : Dependency) ∈ twoTargetsGraph.depsOf 0 ∧
    (CrateGraphJson.«from» twoTargetsGraph).to_crate_graph.arena.length
      = twoTargetsGraph.arena.length ∧
    ¬ ∃ d ∈ (CrateGraphJson.«from» twoTargetsGraph).to_crate_graph.depsOf 0,
        d.name = "a" ∧ d.crate_id = 2 := by
  decide

end CrateGraphCodec
